import Mathlib

/-!
Shallow embedding of the Session & Buffer Synchronization Engine of the
Clif-Code repository: the file store (`stores/fileStore.ts`, given as
`src/unnamed/part_009`), the terminal session panel
(`src/unnamed/part_000`), and the Monaco model/view-state cache
(`src/components/editor/MonacoEditor.tsx`).

JavaScript strings are modelled by Lean `String`; `String.prototype.startsWith`
and `String.prototype.split` are re-implemented on the underlying character
list so that all definitions reduce in the kernel.
-/

namespace ClifCode

/-- Model of JS `s.startsWith(pre)`: character-list prefix test. -/
def jsStartsWith (s pre : String) : Bool :=
  pre.data.isPrefixOf s.data

/-- Model of JS `String.prototype.split(sep)` for a one-character separator,
on character lists.  Always returns at least one (possibly empty) part. -/
def splitOnChar (c : Char) : List Char → List (List Char)
  | [] => [[]]
  | x :: xs =>
    let rest := splitOnChar c xs
    if x = c then [] :: rest
    else
      match rest with
      | [] => [[x]]
      | r :: rs => (x :: r) :: rs

/-- `lib/utils.ts` `getFileName`: `path.split("/").pop() || path`. -/
def getFileName (path : String) : String :=
  let last := (splitOnChar '/' path.data).getLastD []
  if last.isEmpty then path else String.mk last

/-- `lib/utils.ts` `getFileExtension`: `name.split(".")`, return the popped
last part when there is more than one part, else `null`. -/
def getFileExtension (name : String) : Option String :=
  let parts := splitOnChar '.' name.data
  if parts.length > 1 then some (String.mk (parts.getLastD [])) else none

/-- ASCII lower-casing of one character (model of JS `toLowerCase` on the
ASCII extensions this map contains). -/
def charToLower (c : Char) : Char :=
  if 'A' ≤ c ∧ c ≤ 'Z' then Char.ofNat (c.toNat + 32) else c

/-- ASCII lower-casing of a string. -/
def toLowerStr (s : String) : String :=
  String.mk (s.data.map charToLower)

/-- The extension → Monaco-language map of `lib/utils.ts`. -/
def languageMap : List (String × String) :=
  [("ts", "typescript"), ("tsx", "typescriptreact"), ("js", "javascript"),
   ("jsx", "javascriptreact"), ("rs", "rust"), ("py", "python"),
   ("rb", "ruby"), ("go", "go"), ("java", "java"), ("kt", "kotlin"),
   ("swift", "swift"), ("c", "c"), ("cpp", "cpp"), ("h", "c"),
   ("hpp", "cpp"), ("cs", "csharp"), ("php", "php"), ("html", "html"),
   ("css", "css"), ("scss", "scss"), ("less", "less"), ("json", "json"),
   ("xml", "xml"), ("yaml", "yaml"), ("yml", "yaml"), ("toml", "toml"),
   ("md", "markdown"), ("sql", "sql"), ("sh", "shell"), ("bash", "shell"),
   ("zsh", "shell"), ("dockerfile", "dockerfile"), ("graphql", "graphql"),
   ("vue", "html"), ("svelte", "html"), ("lua", "lua"), ("r", "r"),
   ("dart", "dart"), ("zig", "zig")]

/-- `lib/utils.ts` `getLanguageFromExtension`: `null` and the empty string
are falsy, hence map to `"plaintext"`; otherwise look the lower-cased
extension up in the map, defaulting to `"plaintext"`. -/
def getLanguageFromExtension : Option String → String
  | none => "plaintext"
  | some ext =>
    if ext = "" then "plaintext"
    else
      match languageMap.lookup (toLowerStr ext) with
      | some l => l
      | none => "plaintext"

/-- `types/files.ts` `OpenFile`: one open buffer entry of the file store. -/
structure OpenFile where
  path : String
  name : String
  content : String
  language : String
  isDirty : Bool
  isPreview : Bool := false
deriving Repr, DecidableEq

/-- The mutable module-level state of `stores/fileStore.ts` that the claims
are about: project root signal, open-files store, active-file signal.
(The file-tree signal is modelled separately through the re-listing events
recorded by the watcher timeline, see `watcherRun`.) -/
structure FileStore where
  projectRoot : Option String
  openFiles : List OpenFile
  activeFilePath : Option String
deriving Repr, DecidableEq

/-- Model of JS `Array.prototype.findIndex`. -/
def findIndex (pred : OpenFile → Bool) : List OpenFile → Option Nat
  | [] => none
  | x :: xs => if pred x then some 0 else (findIndex pred xs).map (· + 1)

/-- Mutating the entry `setOpenFiles(existingIdx, …)` addresses: update the
first list element whose path matches (the element `findIndex` found). -/
def updateFirst (p : String) (upd : OpenFile → OpenFile) :
    List OpenFile → List OpenFile
  | [] => []
  | x :: xs => if x.path = p then upd x :: xs else x :: updateFirst p upd xs

/-- The filesystem is a partial map from path to content; `none` models a
failing `readFile` (caught by the store's `try`/`catch`). -/
def Disk := String → Option String

/-- `fileStore.ts` `openFile`: if already open just activate it; otherwise
read from disk (a failed read is caught and leaves the store unchanged),
derive name/language, push a clean entry and activate it. -/
def openFile (disk : Disk) (path : String) (s : FileStore) : FileStore :=
  match s.openFiles.find? (fun f => f.path = path) with
  | some _ => { s with activeFilePath := some path }
  | none =>
    match disk path with
    | none => s
    | some content =>
      let name := getFileName path
      let language := getLanguageFromExtension (getFileExtension name)
      { s with
          openFiles := s.openFiles ++
            [{ path, name, content, language, isDirty := false }],
          activeFilePath := some path }

/-- `fileStore.ts` `closeFile`: remove the entry at the found index; if the
active file was closed, activate the neighbour at `min idx (length-1)`
(`openFiles[newIdx]?.path || null` — a missing entry or empty-string path
yields `null`), or `null` when no files remain. -/
def closeFile (path : String) (s : FileStore) : FileStore :=
  match findIndex (fun f => f.path = path) s.openFiles with
  | none => s
  | some idx =>
    let files := s.openFiles.eraseIdx idx
    if s.activeFilePath = some path then
      if files.length > 0 then
        let newIdx := min idx (files.length - 1)
        { s with
            openFiles := files,
            activeFilePath :=
              match files.get? newIdx with
              | some f => if f.path = "" then none else some f.path
              | none => none }
      else
        { s with openFiles := files, activeFilePath := none }
    else
      { s with openFiles := files }

/-- `fileStore.ts` `closeOtherFiles`: drop every entry whose path differs
(the reverse-iterating splice loop keeps exactly the matching entries in
order), then activate the given path unconditionally. -/
def closeOtherFiles (path : String) (s : FileStore) : FileStore :=
  { s with
      openFiles := s.openFiles.filter (fun f => f.path == path),
      activeFilePath := some path }

/-- `fileStore.ts` `closeAllFiles`. -/
def closeAllFiles (s : FileStore) : FileStore :=
  { s with openFiles := [], activeFilePath := none }

/-- `fileStore.ts` `closeFilesToRight`: truncate after the found index;
if the previously active path no longer appears, activate the given path. -/
def closeFilesToRight (path : String) (s : FileStore) : FileStore :=
  match findIndex (fun f => f.path = path) s.openFiles with
  | none => s
  | some idx =>
    let files := s.openFiles.take (idx + 1)
    match s.activeFilePath with
    | none => { s with openFiles := files }
    | some activePath =>
      if (files.find? (fun f => f.path = activePath)).isNone then
        { s with openFiles := files, activeFilePath := some path }
      else
        { s with openFiles := files }

/-- `fileStore.ts` `updateFileContent`: set content and mark dirty on the
entry at the found index (no-op when the path is not open).  This is the
only operation that sets `isDirty`. -/
def updateFileContent (path content : String) (s : FileStore) : FileStore :=
  match findIndex (fun f => f.path = path) s.openFiles with
  | none => s
  | some _ =>
    { s with
        openFiles := updateFirst path
          (fun f => { f with content := content, isDirty := true })
          s.openFiles }

/-- `fileStore.ts` `saveFile`: no-op when the path is not open; `ok` is the
outcome of the `writeFile` IPC call — on success clear `isDirty` at the
found index, on failure (`catch`) leave the store unchanged. -/
def saveFile (ok : Bool) (path : String) (s : FileStore) : FileStore :=
  match s.openFiles.find? (fun f => f.path = path) with
  | none => s
  | some _ =>
    if ok then
      { s with
          openFiles := updateFirst path
            (fun f => { f with isDirty := false }) s.openFiles }
    else s

/-- `fileStore.ts` `openPreview`: activate an existing preview tab, else
take content from the open source entry or from disk (a failed read aborts),
and push a read-only markdown preview entry. -/
def openPreview (disk : Disk) (sourcePath : String) (s : FileStore) :
    FileStore :=
  let previewPath := sourcePath ++ "::preview"
  match s.openFiles.find? (fun f => f.path = previewPath) with
  | some _ => { s with activeFilePath := some previewPath }
  | none =>
    let content? :=
      match s.openFiles.find? (fun f => f.path = sourcePath) with
      | some sourceFile => some sourceFile.content
      | none => disk sourcePath
    match content? with
    | none => s
    | some content =>
      let name := "Preview: " ++ getFileName sourcePath
      { s with
          openFiles := s.openFiles ++
            [{ path := previewPath, name, content,
               language := "markdown", isDirty := false, isPreview := true }],
          activeFilePath := some previewPath }

/-- Kinds of filesystem-change events delivered by the watcher
(`{ fileChanged: {path, kind: create|modify|delete} }`). -/
inductive FsKind where
  | create
  | modify
  | delete
deriving Repr, DecidableEq

/-- One filesystem-change event. -/
structure FsEvent where
  path : String
  kind : FsKind
deriving Repr, DecidableEq

/-- The buffer-reconciliation part of the `onFileChanged` handler in
`fileStore.ts` `openProject` (the branch taken once the root filter has
passed): on `create`/`modify` for an already-open path, refetch content
(a failed read is caught and changes nothing) and, only when the refetched
content differs from the cache, overwrite `content` and clear `isDirty`;
on `create` or `modify` for a path that is not open, auto-open it. -/
def bufferStep (disk : Disk) (ev : FsEvent) (s : FileStore) : FileStore :=
  if ev.kind = FsKind.create ∨ ev.kind = FsKind.modify then
    match s.openFiles.find? (fun f => f.path = ev.path) with
    | some existing =>
      match disk ev.path with
      | none => s
      | some content =>
        if existing.content ≠ content then
          { s with
              openFiles := updateFirst ev.path
                (fun f => { f with content := content, isDirty := false })
                s.openFiles }
        else s
    | none => openFile disk ev.path s
  else s

/-- The debounce window of the file-tree refresh timer in
`fileStore.ts` (`setTimeout(…, 500)`). -/
def refreshDebounceMs : Nat := 500

/-- Module-level watcher state of `fileStore.ts`: the store plus the
single-slot `refreshTimer` (due instant of the pending coalesced
re-listing, `none` when no timer is pending). -/
structure WatcherState where
  store : FileStore
  refreshTimer : Option Nat
deriving Repr, DecidableEq

/-- The full `onFileChanged` handler of `openProject`, run at instant
`now`: ignore when no project root is set or when `!event.path.startsWith(root)`
(a raw string-prefix test); otherwise apply the buffer reconciliation and
reset the single debounce timer (`clearTimeout` of any pending timer,
`setTimeout` of a fresh one due `refreshDebounceMs` later). -/
def handleFileChangedAt (disk : Disk) (now : Nat) (ev : FsEvent)
    (w : WatcherState) : WatcherState :=
  match w.store.projectRoot with
  | none => w
  | some root =>
    if jsStartsWith ev.path root then
      { store := bufferStep disk ev w.store,
        refreshTimer := some (now + refreshDebounceMs) }
    else w

/-- Timed run of the watcher over a time-stamped event list (instants
nondecreasing): before handling an event, a pending timer whose due instant
has been reached fires (the coalesced re-listing runs and the slot empties);
firing instants are returned alongside the final state. -/
def watcherRun (disk : Disk) (w : WatcherState) :
    List (Nat × FsEvent) → WatcherState × List Nat
  | [] => (w, [])
  | (t, ev) :: rest =>
    match w.refreshTimer with
    | some d =>
      if d ≤ t then
        let w1 := handleFileChangedAt disk t ev { w with refreshTimer := none }
        let r := watcherRun disk w1 rest
        (r.1, d :: r.2)
      else
        let w1 := handleFileChangedAt disk t ev w
        let r := watcherRun disk w1 rest
        (r.1, r.2)
    | none =>
      let w1 := handleFileChangedAt disk t ev w
      let r := watcherRun disk w1 rest
      (r.1, r.2)

/-- All re-listing instants of a complete run: firings during the event
sequence, plus the still-pending timer firing once quiescence is reached. -/
def watcherFirings (disk : Disk) (w : WatcherState)
    (evs : List (Nat × FsEvent)) : List Nat :=
  let r := watcherRun disk w evs
  r.2 ++ (match r.1.refreshTimer with | some d => [d] | none => [])

/-- The grace delay before a respawn attempt in `TerminalPanel`
(`setTimeout(…, 500)` inside the `onPtyExit` handler). -/
def respawnGraceMs : Nat := 500

/-- State of one `TerminalPanel` (`src/unnamed/part_000`), restricted to the
session-lifecycle pieces the claims are about: the `alive` flag, the
`sessionId` signal, the currently bound exit subscription (the `onPtyExit`
listener closure captures the spawned `sid` it filters on and the
`workingDir` argument of the enclosing `spawnSession` call; `none` after
`unlistenExit` has been called), the pending respawn `setTimeout`s
(due instant and the captured `workingDir`; the runtime fires them in
order), and logs of the `ptySpawn` calls (fresh id, working directory) and
`ptyKill` calls issued so far. -/
structure Panel where
  alive : Bool
  sessionId : Option String
  exitSub : Option (String × Option String)
  pendingTimers : List (Nat × Option String)
  spawns : List (String × Option String)
  kills : List String
deriving Repr, DecidableEq

/-- `TerminalPanel` `spawnSession` (successful spawn): dispose the previous
output/exit listeners, obtain a fresh id from `ptySpawn`, publish it through
`setSessionId`, and bind fresh listeners filtering on the new id (the new
exit-listener closure captures the same `workingDir` argument).  A rejected
`ptySpawn` instead prints an inline error and changes none of this state. -/
def spawnSessionM (fresh : String) (wd : Option String) (p : Panel) : Panel :=
  { p with
      sessionId := some fresh,
      exitSub := some (fresh, wd),
      spawns := p.spawns ++ [(fresh, wd)] }

/-- The `onPtyExit` listener, receiving an exit notification for `sid` at
instant `now`: only when a listener is bound, the event's id matches the
captured `sid` and the panel is still `alive` does it write the restart
notice and schedule `spawnSession(workingDir)` after the grace delay. -/
def onExitEvent (now : Nat) (sid : String) (p : Panel) : Panel :=
  match p.exitSub with
  | none => p
  | some (bound, wd) =>
    if sid = bound ∧ p.alive = true then
      { p with pendingTimers := p.pendingTimers ++ [(now + respawnGraceMs, wd)] }
    else p

/-- The runtime firing the oldest pending respawn timer, `fresh` being the
id `ptySpawn` would hand out: the callback re-checks `alive` and only then
re-invokes `spawnSession` with the captured working directory. -/
def fireTimer (fresh : String) (p : Panel) : Panel :=
  match p.pendingTimers with
  | [] => p
  | (_, wd) :: rest =>
    let p1 := { p with pendingTimers := rest }
    if p1.alive then spawnSessionM fresh wd p1 else p1

/-- The `createEffect` reacting to a `workingDir` change while a session is
live (`TerminalPanel` lines 250-267): kill the old session, dispose its
listeners, null the session id, and spawn afresh at the new directory. -/
def changeDir (newDir : String) (fresh : String) (p : Panel) : Panel :=
  match p.sessionId with
  | none => p
  | some sid =>
    spawnSessionM fresh (some newDir)
      { p with
          kills := p.kills ++ [sid],
          exitSub := none,
          sessionId := none }

/-- `TerminalPanel` `onCleanup`: clear `alive`, dispose the listeners, and
best-effort `ptyKill` the current session.  Pending `setTimeout`s are not
cancelled — their callbacks are neutralised by the `alive` check. -/
def cleanupM (p : Panel) : Panel :=
  let p1 := { p with alive := false, exitSub := none }
  match p1.sessionId with
  | none => p1
  | some sid => { p1 with kills := p1.kills ++ [sid] }

/-- The module-level caches of `MonacoEditor.tsx` together with the part of
monaco's global model registry the code consults: `modelCache` maps a path
to the model created for it, `monacoByUri` is `monaco.editor.getModel`'s
uri-keyed registry, `modelData` carries each model's value and language id,
`disposedIds` the models on which `dispose()` has run, and `nextId` feeds
`createModel` with fresh identities.  Map `set` is modelled by consing
(lookup takes the newest binding). -/
structure ModelRegistry where
  modelCache : List (String × Nat)
  monacoByUri : List (String × Nat)
  modelData : List (Nat × String × String)
  disposedIds : List Nat
  nextId : Nat
deriving Repr, DecidableEq

/-- In-place mutation of a model's value and language (the source applies
`setModelLanguage`/`setValue` only when they differ; the resulting model
data is the same either way). -/
def setModelData (id : Nat) (content language : String) :
    List (Nat × String × String) → List (Nat × String × String)
  | [] => []
  | (i, v, l) :: rest =>
    if i = id then (i, content, language) :: rest
    else (i, v, l) :: setModelData id content language rest

/-- The fall-through part of `getOrCreateModel`: parse `file://{path}`,
adopt a model monaco already tracks for that uri into `modelCache`, else
`createModel` a fresh one registered under the uri and cached under the
path. -/
def getOrCreateModelByUri (path content language : String)
    (reg : ModelRegistry) : Nat × ModelRegistry :=
  let uri := "file://" ++ path
  match reg.monacoByUri.lookup uri with
  | some m => (m, { reg with modelCache := (path, m) :: reg.modelCache })
  | none =>
    let id := reg.nextId
    (id, { reg with
            modelData := (id, content, language) :: reg.modelData,
            monacoByUri := (uri, id) :: reg.monacoByUri,
            modelCache := (path, id) :: reg.modelCache,
            nextId := id + 1 })

/-- `MonacoEditor.tsx` `getOrCreateModel`: a cached, undisposed model for
the path is re-used (its language and value synchronised to the arguments);
otherwise fall through to the uri lookup / fresh creation. -/
def getOrCreateModel (path content language : String)
    (reg : ModelRegistry) : Nat × ModelRegistry :=
  match reg.modelCache.lookup path with
  | some id =>
    if reg.disposedIds.contains id then
      getOrCreateModelByUri path content language reg
    else
      (id, { reg with modelData := setModelData id content language reg.modelData })
  | none => getOrCreateModelByUri path content language reg

/-- The editor-side state driven by the `activeFile` effect of
`MonacoEditor.tsx`: `currentPath` is the path whose model the editor
displays, `liveViewState` the opaque result `editor.saveViewState()` would
return right now (`none` when there is no model or only default state), and
`viewStateCache` the module-level side table surviving close/reopen. -/
structure EditorState where
  currentPath : Option String
  liveViewState : Option Nat
  viewStateCache : List (String × Nat)
deriving Repr, DecidableEq

/-- `fileStore.ts` `activeFile` memo: resolve the active path in the
open-files list. -/
def activeFile (s : FileStore) : Option OpenFile :=
  match s.activeFilePath with
  | none => none
  | some path => s.openFiles.find? (fun f => f.path = path)

/-- The `createEffect` watching `activeFile` (`MonacoEditor.tsx` lines
80-117): snapshot the previous path's view-state into the side table (when
`saveViewState` yields one), then either detach the model (`file = null`)
or attach the file's model and restore the cached view-state for its path
if the side table has one (otherwise the fresh model shows default state). -/
def activeFileEffect (file : Option OpenFile) (e : EditorState) :
    EditorState :=
  let e1 :=
    match e.currentPath, e.liveViewState with
    | some cp, some st => { e with viewStateCache := (cp, st) :: e.viewStateCache }
    | _, _ => e
  match file with
  | none => { e1 with currentPath := none, liveViewState := none }
  | some f =>
    { e1 with
        currentPath := some f.path,
        liveViewState := e1.viewStateCache.lookup f.path }

/-! ### Concrete scenario data (used by witnesses and counterexamples) -/

/-- Disk holding `"x=1"` at `/proj/a.ts` (the stale-disk scenario of §8). -/
def diskA : Disk := fun p => if p = "/proj/a.ts" then some "x=1" else none

/-- An open buffer for `/proj/a.ts` carrying the unsaved local edit `"x=2"`. -/
def bufA : OpenFile :=
  { path := "/proj/a.ts", name := "a.ts", content := "x=2",
    language := "typescript", isDirty := true }

/-- Store with project root `/proj` and the dirty buffer `bufA` open. -/
def storeA : FileStore :=
  { projectRoot := some "/proj", openFiles := [bufA],
    activeFilePath := some "/proj/a.ts" }

/-- A clean buffer for `/proj/a.ts` whose content matches `diskA`. -/
def bufClean : OpenFile :=
  { path := "/proj/a.ts", name := "a.ts", content := "x=1",
    language := "typescript", isDirty := false }

/-- Store with the clean buffer `bufClean` open. -/
def storeClean : FileStore :=
  { projectRoot := some "/proj", openFiles := [bufClean],
    activeFilePath := some "/proj/a.ts" }

/-- Disk holding content only at `/proj/b.ts`. -/
def diskB : Disk := fun p => if p = "/proj/b.ts" then some "hello" else none

/-- Store with project root `/proj` and nothing open. -/
def storeEmpty : FileStore :=
  { projectRoot := some "/proj", openFiles := [], activeFilePath := none }

/-- Disk holding content only at the sibling path `/project2/a.ts`. -/
def diskSibling : Disk :=
  fun p => if p = "/project2/a.ts" then some "hi" else none

/-- Disk on which every read fails. -/
def diskNone : Disk := fun _ => none

/-- Five in-root events 100ms apart (the §8 debounce burst scenario). -/
def burstEvents : List (Nat × FsEvent) :=
  [(0, ⟨"/proj/x", FsKind.delete⟩), (100, ⟨"/proj/x", FsKind.delete⟩),
   (200, ⟨"/proj/x", FsKind.delete⟩), (300, ⟨"/proj/x", FsKind.delete⟩),
   (400, ⟨"/proj/x", FsKind.delete⟩)]

/-- A freshly spawned panel: alive, session `"s1"` bound, no pending timer. -/
def panelA : Panel :=
  { alive := true, sessionId := some "s1", exitSub := some ("s1", some "/proj"),
    pendingTimers := [], spawns := [("s1", some "/proj")], kills := [] }

/-- A one-entry store used by the view-state and invariant scenarios. -/
def bufSmall : OpenFile :=
  { path := "a", name := "a", content := "x", language := "plaintext",
    isDirty := false }

/-- Store with only `bufSmall` open and active. -/
def storeSmall : FileStore :=
  { projectRoot := none, openFiles := [bufSmall], activeFilePath := some "a" }

/-- Editor currently displaying `"a"` with live view-state `7`. -/
def editorSmall : EditorState :=
  { currentPath := some "a", liveViewState := some 7, viewStateCache := [] }

/-- Disk holding `"x"` at `"a"`. -/
def diskSmall : Disk := fun p => if p = "a" then some "x" else none

/-- The entry `openFile` constructs for a path freshly read from disk
(used to state equation lemmas about `openFile`). -/
def freshEntry (p content : String) : OpenFile :=
  { path := p, name := getFileName p, content,
    language := getLanguageFromExtension (getFileExtension (getFileName p)),
    isDirty := false }

/-- The invariant every buffer-store operation is claimed to keep: the
active file path is `null` or the path of some currently open entry. -/
def activeInv (s : FileStore) : Prop :=
  match s.activeFilePath with
  | none => True
  | some p => p ∈ s.openFiles.map OpenFile.path

instance decActiveInv (s : FileStore) : Decidable (activeInv s) :=
  match h : s.activeFilePath with
  | none => isTrue (by unfold activeInv; rw [h]; exact trivial)
  | some p =>
    if hm : p ∈ s.openFiles.map OpenFile.path then
      isTrue (by unfold activeInv; rw [h]; exact hm)
    else
      isFalse (by unfold activeInv; rw [h]; exact hm)

/-! ### Helper lemmas -/

theorem find?_updateFirst (p : String) (upd : OpenFile → OpenFile)
    (hupd : ∀ x, (upd x).path = x.path) (l : List OpenFile) :
    ∀ f : OpenFile,
      l.find? (fun g => g.path = p) = some f →
      (updateFirst p upd l).find? (fun g => g.path = p) = some (upd f) := by
  induction l with
  | nil => intro f h; simp [List.find?] at h
  | cons x xs ih =>
    intro f h
    by_cases hx : x.path = p
    · simp [List.find?, hx] at h
      subst h
      simp [updateFirst, hx, List.find?, hupd]
    · simp [List.find?, hx] at h
      simp [updateFirst, hx, List.find?, ih f h]

theorem updateFirst_map_path (p : String) (upd : OpenFile → OpenFile)
    (hupd : ∀ x, (upd x).path = x.path) (l : List OpenFile) :
    (updateFirst p upd l).map OpenFile.path = l.map OpenFile.path := by
  induction l with
  | nil => rfl
  | cons x xs ih =>
    by_cases hx : x.path = p
    · simp [updateFirst, hx, hupd]
    · simp [updateFirst, hx, ih]

theorem openFile_projectRoot (disk : Disk) (p : String) (s : FileStore) :
    (openFile disk p s).projectRoot = s.projectRoot := by
  unfold openFile
  cases s.openFiles.find? (fun f => f.path = p)
  · cases disk p <;> rfl
  · rfl

theorem bufferStep_projectRoot (disk : Disk) (ev : FsEvent) (s : FileStore) :
    (bufferStep disk ev s).projectRoot = s.projectRoot := by
  unfold bufferStep
  split
  · cases hf : s.openFiles.find? (fun f => f.path = ev.path)
    · simp [openFile_projectRoot]
    · cases disk ev.path
      · rfl
      · dsimp only
        split <;> rfl
  · rfl

theorem handleFileChangedAt_inroot (disk : Disk) (now : Nat) (ev : FsEvent)
    (w : WatcherState) (root : String)
    (hroot : w.store.projectRoot = some root)
    (hin : jsStartsWith ev.path root = true) :
    handleFileChangedAt disk now ev w =
      ⟨bufferStep disk ev w.store, some (now + refreshDebounceMs)⟩ := by
  simp [handleFileChangedAt, hroot, hin]

theorem openFile_already_open (disk : Disk) (p : String) (s : FileStore)
    (f : OpenFile) (hf : s.openFiles.find? (fun g => g.path = p) = some f) :
    openFile disk p s = { s with activeFilePath := some p } := by
  rw [openFile, hf]

theorem openFile_read_fail (disk : Disk) (p : String) (s : FileStore)
    (hf : s.openFiles.find? (fun g => g.path = p) = none)
    (hdk : disk p = none) :
    openFile disk p s = s := by
  rw [openFile, hf]
  dsimp only
  rw [hdk]

theorem openFile_fresh (disk : Disk) (p : String) (s : FileStore)
    (content : String)
    (hf : s.openFiles.find? (fun g => g.path = p) = none)
    (hdk : disk p = some content) :
    openFile disk p s =
      { s with openFiles := s.openFiles ++ [freshEntry p content],
               activeFilePath := some p } := by
  rw [openFile, hf]
  dsimp only
  rw [hdk]
  rfl

/-! ### C1 -/

/-- C1: the claim states that a `modify` (or `create`) event for a path
with a live, dirty buffer leaves `content` and `isDirty` unchanged.  The
handler has no `isDirty` guard: on the dirty buffer `bufA` (`content
"x=2"`, `isDirty true`) a `modify` event whose refetched disk content is
`"x=1"` overwrites the content and clears the dirty flag, so the claim is
false. -/
theorem C1_counterexample :
    bufA.isDirty = true ∧ bufA.content = "x=2" ∧ diskA bufA.path = some "x=1" ∧
    (handleFileChangedAt diskA 0 ⟨"/proj/a.ts", FsKind.modify⟩
        ⟨storeA, none⟩).store.openFiles
      = [{ bufA with content := "x=1", isDirty := false }] := by
  decide

/-- C1 (amended): for a `create`/`modify` event inside the root whose path
has a live buffer, whenever the refetched disk content differs
byte-for-byte from the cached content the handler overwrites `content`
with the disk content and clears `isDirty` — regardless of the buffer's
dirty flag (local unsaved edits are clobbered by external changes). -/
theorem C1_external_change_overwrites_dirty
    (disk : Disk) (now : Nat) (ev : FsEvent) (w : WatcherState)
    (root : String) (f : OpenFile) (content : String)
    (hroot : w.store.projectRoot = some root)
    (hin : jsStartsWith ev.path root = true)
    (hkind : ev.kind = FsKind.create ∨ ev.kind = FsKind.modify)
    (hfind : w.store.openFiles.find? (fun g => g.path = ev.path) = some f)
    (hdisk : disk ev.path = some content)
    (hne : f.content ≠ content) :
    (handleFileChangedAt disk now ev w).store.openFiles.find?
        (fun g => g.path = ev.path)
      = some { f with content := content, isDirty := false } := by
  rw [handleFileChangedAt_inroot disk now ev w root hroot hin]
  show (bufferStep disk ev w.store).openFiles.find? _ = _
  rw [bufferStep, if_pos hkind, hfind, hdisk]
  simp only [ne_eq, hne, not_false_eq_true, if_true, ite_not, if_neg hne]
  exact find?_updateFirst ev.path
    (fun g => { g with content := content, isDirty := false })
    (fun x => rfl) w.store.openFiles f hfind

/-- Witness for C1 (amended) at the concrete dirty-buffer scenario. -/
theorem C1_external_change_overwrites_dirty_witness :
    (handleFileChangedAt diskA 0 ⟨"/proj/a.ts", FsKind.modify⟩
        ⟨storeA, none⟩).store.openFiles.find?
        (fun g => g.path = "/proj/a.ts")
      = some { bufA with content := "x=1", isDirty := false } :=
  C1_external_change_overwrites_dirty diskA 0 ⟨"/proj/a.ts", FsKind.modify⟩
    ⟨storeA, none⟩ "/proj" bufA "x=1" (by decide) (by decide)
    (Or.inr rfl) (by decide) (by decide) (by decide)

/-! ### C2 -/

/-- C2: the claim states that a `modify` event for an in-root path with no
live buffer creates no new entry (auto-open being reserved for `create`).
The handler's `else if (event.kind === "modify")` branch auto-opens such
paths: on an empty store, a `modify` event for `/proj/b.ts` creates and
activates a fresh entry, so the claim is false. -/
theorem C2_counterexample :
    storeEmpty.openFiles = [] ∧
    (handleFileChangedAt diskB 0 ⟨"/proj/b.ts", FsKind.modify⟩
        ⟨storeEmpty, none⟩).store.openFiles.map OpenFile.path
      = ["/proj/b.ts"] ∧
    (handleFileChangedAt diskB 0 ⟨"/proj/b.ts", FsKind.modify⟩
        ⟨storeEmpty, none⟩).store.activeFilePath = some "/proj/b.ts" := by
  decide

/-- C2 (amended): for an in-root `create` **or `modify`** event whose path
has no live buffer, the handler auto-opens the path whenever the disk read
succeeds: a fresh clean `BufferEntry` is appended and activated. -/
theorem C2_modify_auto_opens
    (disk : Disk) (now : Nat) (ev : FsEvent) (w : WatcherState)
    (root content : String)
    (hroot : w.store.projectRoot = some root)
    (hin : jsStartsWith ev.path root = true)
    (hkind : ev.kind = FsKind.create ∨ ev.kind = FsKind.modify)
    (hfind : w.store.openFiles.find? (fun g => g.path = ev.path) = none)
    (hdisk : disk ev.path = some content) :
    (handleFileChangedAt disk now ev w).store.openFiles
      = w.store.openFiles ++
        [{ path := ev.path, name := getFileName ev.path, content,
           language := getLanguageFromExtension
             (getFileExtension (getFileName ev.path)),
           isDirty := false }]
    ∧ (handleFileChangedAt disk now ev w).store.activeFilePath
      = some ev.path := by
  rw [handleFileChangedAt_inroot disk now ev w root hroot hin]
  show (bufferStep disk ev w.store).openFiles = _
    ∧ (bufferStep disk ev w.store).activeFilePath = _
  rw [bufferStep, if_pos hkind, hfind]
  simp [openFile, hfind, hdisk]

/-- Witness for C2 (amended): a `modify` event auto-opens `/proj/b.ts`. -/
theorem C2_modify_auto_opens_witness :
    (handleFileChangedAt diskB 0 ⟨"/proj/b.ts", FsKind.modify⟩
        ⟨storeEmpty, none⟩).store.openFiles
      = storeEmpty.openFiles ++
        [{ path := "/proj/b.ts", name := getFileName "/proj/b.ts",
           content := "hello",
           language := getLanguageFromExtension
             (getFileExtension (getFileName "/proj/b.ts")),
           isDirty := false }]
    ∧ (handleFileChangedAt diskB 0 ⟨"/proj/b.ts", FsKind.modify⟩
        ⟨storeEmpty, none⟩).store.activeFilePath = some "/proj/b.ts" :=
  C2_modify_auto_opens diskB 0 ⟨"/proj/b.ts", FsKind.modify⟩
    ⟨storeEmpty, none⟩ "/proj" "hello" (by decide) (by decide)
    (Or.inr rfl) (by decide) (by decide)

/-! ### C3 -/

/-- C3: the claim states that events outside the project root are ignored,
and in particular that a sibling path merely extending the root's name as
a string (root `/proj`, path `/project2/a.ts`) counts as outside.  The
handler's filter is the raw string test `event.path.startsWith(root)`, which
that sibling path passes: the event is processed — an entry is auto-opened
and a re-listing is scheduled — so the claim is false. -/
theorem C3_counterexample :
    jsStartsWith "/project2/a.ts" "/proj" = true ∧
    (handleFileChangedAt diskSibling 0 ⟨"/project2/a.ts", FsKind.create⟩
        ⟨storeEmpty, none⟩).store.openFiles.map OpenFile.path
      = ["/project2/a.ts"] ∧
    (handleFileChangedAt diskSibling 0 ⟨"/project2/a.ts", FsKind.create⟩
        ⟨storeEmpty, none⟩).refreshTimer = some refreshDebounceMs := by
  decide

/-- C3 (amended): the root filter is a raw string-prefix test: every event
whose path does not extend the root as a string is ignored entirely — the
store is untouched and no re-listing is scheduled — while a sibling path
that extends the root's name string is treated as inside the root. -/
theorem C3_outside_prefix_ignored
    (disk : Disk) (now : Nat) (ev : FsEvent) (w : WatcherState)
    (root : String)
    (hroot : w.store.projectRoot = some root)
    (hout : jsStartsWith ev.path root = false) :
    handleFileChangedAt disk now ev w = w := by
  simp [handleFileChangedAt, hroot, hout]

/-- Witness for C3 (amended): `/other/x` does not extend `/proj`, so the
event is a complete no-op. -/
theorem C3_outside_prefix_ignored_witness :
    handleFileChangedAt diskNone 0 ⟨"/other/x", FsKind.create⟩
        ⟨storeEmpty, none⟩
      = ⟨storeEmpty, none⟩ :=
  C3_outside_prefix_ignored diskNone 0 ⟨"/other/x", FsKind.create⟩
    ⟨storeEmpty, none⟩ "/proj" (by decide) (by decide)

/-! ### C4 -/

/-- C4: a `modify` event for an in-root path whose live buffer is clean
and whose refetched disk content equals the cached content leaves the
whole store — in particular the `BufferEntry`, all fields included —
unchanged (the self-write loop-avoidance no-op). -/
theorem C4_identical_content_no_mutation
    (disk : Disk) (now : Nat) (ev : FsEvent) (w : WatcherState)
    (root : String) (f : OpenFile)
    (hroot : w.store.projectRoot = some root)
    (hin : jsStartsWith ev.path root = true)
    (hkind : ev.kind = FsKind.modify)
    (hfind : w.store.openFiles.find? (fun g => g.path = ev.path) = some f)
    (_hdirty : f.isDirty = false)
    (hdisk : disk ev.path = some f.content) :
    (handleFileChangedAt disk now ev w).store = w.store := by
  rw [handleFileChangedAt_inroot disk now ev w root hroot hin]
  show bufferStep disk ev w.store = w.store
  rw [bufferStep, if_pos (Or.inr hkind), hfind, hdisk]
  simp

/-- Witness for C4 at the clean-buffer scenario (`content` matches disk). -/
theorem C4_identical_content_no_mutation_witness :
    (handleFileChangedAt diskA 0 ⟨"/proj/a.ts", FsKind.modify⟩
        ⟨storeClean, none⟩).store = storeClean :=
  C4_identical_content_no_mutation diskA 0 ⟨"/proj/a.ts", FsKind.modify⟩
    ⟨storeClean, none⟩ "/proj" bufClean (by decide) (by decide) rfl
    (by decide) (by decide) (by decide)

/-! ### C5 -/

theorem watcherRun_burst (disk : Disk) (root : String) :
    ∀ (rest : List (Nat × FsEvent)) (s : FileStore) (t : Nat),
      s.projectRoot = some root →
      (∀ te ∈ rest, jsStartsWith te.2.path root = true) →
      List.Chain (fun a b => a ≤ b ∧ b < a + refreshDebounceMs) t
        (rest.map Prod.fst) →
      (watcherRun disk ⟨s, some (t + refreshDebounceMs)⟩ rest).2 = []
      ∧ (watcherRun disk ⟨s, some (t + refreshDebounceMs)⟩ rest).1.refreshTimer
        = some ((rest.map Prod.fst).getLastD t + refreshDebounceMs) := by
  intro rest
  induction rest with
  | nil =>
    intro s t _ _ _
    exact ⟨rfl, rfl⟩
  | cons te rest ih =>
    intro s t hroot hpaths hchain
    obtain ⟨t', ev⟩ := te
    simp only [List.map_cons] at hchain
    rcases hchain with _ | ⟨⟨hle, hlt⟩, hchain'⟩
    have hnotdue : ¬ (t + refreshDebounceMs ≤ t') := by omega
    have hstep :
        handleFileChangedAt disk t' ev ⟨s, some (t + refreshDebounceMs)⟩ =
          ⟨bufferStep disk ev s, some (t' + refreshDebounceMs)⟩ :=
      handleFileChangedAt_inroot disk t' ev ⟨s, some (t + refreshDebounceMs)⟩
        root hroot (hpaths (t', ev) (List.mem_cons_self _ _))
    have hroot' : (bufferStep disk ev s).projectRoot = some root := by
      rw [bufferStep_projectRoot]; exact hroot
    have hpaths' : ∀ te ∈ rest, jsStartsWith te.2.path root = true :=
      fun te hte => hpaths te (List.mem_cons_of_mem _ hte)
    have hrec := ih (bufferStep disk ev s) t' hroot' hpaths' hchain'
    simp only [watcherRun]
    rw [if_neg hnotdue, hstep]
    dsimp only
    rw [List.map_cons, List.getLastD_cons]
    exact hrec

/-- C5: directory re-listing is debounced through the single `refreshTimer`
slot: a burst of in-root events whose consecutive gaps are all shorter than
the 500ms window produces exactly one re-listing, fired one window after
the last event of the burst — never one per event. -/
theorem C5_debounce_coalesces
    (disk : Disk) (root : String) (t0 : Nat) (e0 : FsEvent)
    (rest : List (Nat × FsEvent)) (s : FileStore)
    (hroot : s.projectRoot = some root)
    (hpath0 : jsStartsWith e0.path root = true)
    (hpaths : ∀ te ∈ rest, jsStartsWith te.2.path root = true)
    (hchain : List.Chain (fun a b => a ≤ b ∧ b < a + refreshDebounceMs) t0
      (rest.map Prod.fst)) :
    watcherFirings disk ⟨s, none⟩ ((t0, e0) :: rest)
      = [(rest.map Prod.fst).getLastD t0 + refreshDebounceMs] := by
  have hstep :
      handleFileChangedAt disk t0 e0 ⟨s, none⟩ =
        ⟨bufferStep disk e0 s, some (t0 + refreshDebounceMs)⟩ :=
    handleFileChangedAt_inroot disk t0 e0 ⟨s, none⟩ root hroot hpath0
  have hroot' : (bufferStep disk e0 s).projectRoot = some root := by
    rw [bufferStep_projectRoot]; exact hroot
  have hrec := watcherRun_burst disk root rest (bufferStep disk e0 s) t0
    hroot' hpaths hchain
  rw [watcherFirings]
  simp only [watcherRun, hstep]
  rw [hrec.1, hrec.2]
  simp

/-- Witness for C5: five in-root events 100ms apart with the 500ms window
yield exactly one re-listing, at instant 900. -/
theorem C5_debounce_coalesces_witness :
    watcherFirings diskNone ⟨storeEmpty, none⟩ burstEvents = [900] := by
  have hchain : List.Chain
      (fun a b => a ≤ b ∧ b < a + refreshDebounceMs) 0 [100, 200, 300, 400] := by
    refine List.Chain.cons ⟨by decide, by decide⟩ ?_
    refine List.Chain.cons ⟨by decide, by decide⟩ ?_
    refine List.Chain.cons ⟨by decide, by decide⟩ ?_
    refine List.Chain.cons ⟨by decide, by decide⟩ ?_
    exact List.Chain.nil
  have hpaths : ∀ te ∈ burstEvents.drop 1,
      jsStartsWith te.2.path "/proj" = true := by
    intro te hte
    simp only [burstEvents, List.drop_succ_cons, List.drop_zero,
      List.mem_cons, List.not_mem_nil, or_false] at hte
    rcases hte with h | h | h | h <;> (subst h; decide)
  have h := C5_debounce_coalesces diskNone "/proj" 0 ⟨"/proj/x", FsKind.delete⟩
    (burstEvents.drop 1) storeEmpty rfl (by decide) hpaths hchain
  exact h.trans (by rfl)

/-! ### C6 -/

/-- C6: after an unexpected exit of the live session (panel alive, exit
listener bound to the exited id), no spawn happens at exit time; exactly
one respawn timer is scheduled, due one grace delay after the exit; firing
it issues exactly one new spawn with the same working directory the exited
session was spawned with, and the fresh id replaces the exited one as the
panel's session id. -/
theorem C6_respawn_after_unexpected_exit
    (p : Panel) (sid fresh : String) (wd : Option String) (t : Nat)
    (halive : p.alive = true)
    (hsub : p.exitSub = some (sid, wd))
    (_hsid : p.sessionId = some sid)
    (htimers : p.pendingTimers = []) :
    (onExitEvent t sid p).spawns = p.spawns
    ∧ (onExitEvent t sid p).pendingTimers = [(t + respawnGraceMs, wd)]
    ∧ (fireTimer fresh (onExitEvent t sid p)).spawns
      = p.spawns ++ [(fresh, wd)]
    ∧ (fireTimer fresh (onExitEvent t sid p)).sessionId = some fresh
    ∧ (fireTimer fresh (onExitEvent t sid p)).pendingTimers = [] := by
  have hev : onExitEvent t sid p
      = { p with pendingTimers := p.pendingTimers ++ [(t + respawnGraceMs, wd)] } := by
    rw [onExitEvent, hsub]
    exact if_pos ⟨rfl, halive⟩
  rw [hev, htimers]
  simp [fireTimer, halive, spawnSessionM]

/-- Witness for C6 on the freshly spawned panel `panelA`. -/
theorem C6_respawn_after_unexpected_exit_witness :
    (onExitEvent 1000 "s1" panelA).spawns = panelA.spawns
    ∧ (onExitEvent 1000 "s1" panelA).pendingTimers
      = [(1000 + respawnGraceMs, some "/proj")]
    ∧ (fireTimer "s2" (onExitEvent 1000 "s1" panelA)).spawns
      = panelA.spawns ++ [("s2", some "/proj")]
    ∧ (fireTimer "s2" (onExitEvent 1000 "s1" panelA)).sessionId = some "s2"
    ∧ (fireTimer "s2" (onExitEvent 1000 "s1" panelA)).pendingTimers = [] :=
  C6_respawn_after_unexpected_exit panelA "s1" "s2" (some "/proj") 1000
    rfl rfl rfl rfl

/-! ### C7 -/

/-- C7: an exit event never triggers a respawn once the panel is torn down
or the session was explicitly killed: after `onCleanup`, any exit event is
a complete no-op and a respawn timer firing late issues no spawn and
resurrects no session; after the working-directory re-point (which
explicitly kills the old session and rebinds listeners to the new id), an
exit event for the killed old id is a complete no-op. -/
theorem C7_no_respawn_after_kill_or_teardown
    (p q : Panel) (t : Nat) (sid oldSid newDir newSid fresh : String)
    (hold : q.sessionId = some oldSid)
    (hne : oldSid ≠ newSid) :
    onExitEvent t sid (cleanupM p) = cleanupM p
    ∧ (fireTimer fresh (cleanupM p)).spawns = (cleanupM p).spawns
    ∧ (fireTimer fresh (cleanupM p)).sessionId = (cleanupM p).sessionId
    ∧ (fireTimer fresh (cleanupM p)).exitSub = (cleanupM p).exitSub
    ∧ onExitEvent t oldSid (changeDir newDir newSid q)
      = changeDir newDir newSid q := by
  have hsub : (cleanupM p).exitSub = none := by
    rw [cleanupM]
    cases p.sessionId <;> rfl
  have halive : (cleanupM p).alive = false := by
    rw [cleanupM]
    cases p.sessionId <;> rfl
  refine ⟨?_, ?_, ?_, ?_, ?_⟩
  · rw [onExitEvent, hsub]
  · rw [fireTimer]
    cases htm : (cleanupM p).pendingTimers with
    | nil => rfl
    | cons hd tl => simp [halive]
  · rw [fireTimer]
    cases htm : (cleanupM p).pendingTimers with
    | nil => rfl
    | cons hd tl => simp [halive]
  · rw [fireTimer]
    cases htm : (cleanupM p).pendingTimers with
    | nil => rfl
    | cons hd tl => simp [halive]
  · have hcd : changeDir newDir newSid q
        = spawnSessionM newSid (some newDir)
            { q with kills := q.kills ++ [oldSid], exitSub := none,
                     sessionId := none } := by
      rw [changeDir, hold]
    rw [hcd, onExitEvent]
    show (if oldSid = newSid ∧ _ then _ else _) = _
    rw [if_neg]
    rintro ⟨h, -⟩
    exact hne h

/-- Witness for C7: tear down `panelA`, then deliver a late exit and fire a
late timer; also re-point `panelA` to `/new` and deliver an exit for the
killed old id. -/
theorem C7_no_respawn_after_kill_or_teardown_witness :
    onExitEvent 2000 "s1" (cleanupM panelA) = cleanupM panelA
    ∧ (fireTimer "s9" (cleanupM panelA)).spawns = (cleanupM panelA).spawns
    ∧ (fireTimer "s9" (cleanupM panelA)).sessionId
      = (cleanupM panelA).sessionId
    ∧ (fireTimer "s9" (cleanupM panelA)).exitSub = (cleanupM panelA).exitSub
    ∧ onExitEvent 2000 "s1" (changeDir "/new" "s2" panelA)
      = changeDir "/new" "s2" panelA :=
  C7_no_respawn_after_kill_or_teardown panelA panelA 2000 "s1" "s1" "/new"
    "s2" "s9" rfl (by decide)

/-! ### C8 -/

theorem getOrCreateModel_cached_live (path c l : String)
    (reg : ModelRegistry) (id : Nat)
    (hc : reg.modelCache.lookup path = some id)
    (hd : ¬ reg.disposedIds.contains id = true) :
    getOrCreateModel path c l reg
      = (id, { reg with modelData := setModelData id c l reg.modelData }) := by
  rw [getOrCreateModel, hc]
  dsimp only
  rw [if_neg hd]

theorem getOrCreateModel_cached_disposed (path c l : String)
    (reg : ModelRegistry) (id : Nat)
    (hc : reg.modelCache.lookup path = some id)
    (hd : reg.disposedIds.contains id = true) :
    getOrCreateModel path c l reg = getOrCreateModelByUri path c l reg := by
  rw [getOrCreateModel, hc]
  dsimp only
  rw [if_pos hd]

theorem getOrCreateModel_uncached (path c l : String) (reg : ModelRegistry)
    (hc : reg.modelCache.lookup path = none) :
    getOrCreateModel path c l reg = getOrCreateModelByUri path c l reg := by
  rw [getOrCreateModel, hc]

theorem second_call_of_cached_live (path c2 l2 : String)
    (reg1 : ModelRegistry) (id : Nat)
    (hcache : reg1.modelCache.lookup path = some id)
    (hnd : ¬ reg1.disposedIds.contains id = true) :
    (getOrCreateModel path c2 l2 reg1).1 = id := by
  rw [getOrCreateModel_cached_live path c2 l2 reg1 id hcache hnd]

theorem second_call_of_uri (path c2 l2 : String)
    (reg1 : ModelRegistry) (id : Nat)
    (hcache : reg1.modelCache.lookup path = some id)
    (huri : reg1.monacoByUri.lookup ("file://" ++ path) = some id) :
    (getOrCreateModel path c2 l2 reg1).1 = id := by
  by_cases hd : reg1.disposedIds.contains id = true
  · rw [getOrCreateModel_cached_disposed path c2 l2 reg1 id hcache hd,
      getOrCreateModelByUri, huri]
  · rw [getOrCreateModel_cached_live path c2 l2 reg1 id hcache hd]

theorem second_call_of_byUri (path c1 l1 c2 l2 : String)
    (reg : ModelRegistry) :
    (getOrCreateModel path c2 l2 (getOrCreateModelByUri path c1 l1 reg).2).1
      = (getOrCreateModelByUri path c1 l1 reg).1 := by
  rw [getOrCreateModelByUri]
  cases hu : reg.monacoByUri.lookup ("file://" ++ path) with
  | some m =>
    dsimp only
    exact second_call_of_uri path c2 l2 _ m (by simp [List.lookup]) hu
  | none =>
    dsimp only
    exact second_call_of_uri path c2 l2 _ reg.nextId
      (by simp [List.lookup]) (by simp [List.lookup])

theorem find?_append_none {pred : OpenFile → Bool} {l1 l2 : List OpenFile}
    (h : l1.find? pred = none) :
    (l1 ++ l2).find? pred = l2.find? pred := by
  rw [List.find?_append, h, Option.none_or]

/-- C8: repeated `open(p)` with no intervening `close(p)` always yields
the same model handle: a second `getOrCreateModel` call for the same path
— whatever content/language it passes — returns the identity the first
call returned, and a second `openFile` on the store adds no second
`BufferEntry` for the path. -/
theorem C8_model_identity_stable
    (reg : ModelRegistry) (path c1 l1 c2 l2 : String)
    (disk : Disk) (p : String) (s : FileStore) :
    (getOrCreateModel path c2 l2 (getOrCreateModel path c1 l1 reg).2).1
      = (getOrCreateModel path c1 l1 reg).1
    ∧ (openFile disk p (openFile disk p s)).openFiles
      = (openFile disk p s).openFiles := by
  constructor
  · cases hc : reg.modelCache.lookup path with
    | none =>
      rw [getOrCreateModel_uncached path c1 l1 reg hc]
      exact second_call_of_byUri path c1 l1 c2 l2 reg
    | some id =>
      by_cases hd : reg.disposedIds.contains id = true
      · rw [getOrCreateModel_cached_disposed path c1 l1 reg id hc hd]
        exact second_call_of_byUri path c1 l1 c2 l2 reg
      · rw [getOrCreateModel_cached_live path c1 l1 reg id hc hd]
        exact second_call_of_cached_live path c2 l2 _ id hc hd
  · cases hf : s.openFiles.find? (fun g => g.path = p) with
    | some f =>
      have hf' : (({ s with activeFilePath := some p } : FileStore)).openFiles.find?
          (fun g => g.path = p) = some f := hf
      rw [openFile_already_open disk p s f hf,
        openFile_already_open disk p _ f hf']
    | none =>
      cases hdk : disk p with
      | none =>
        rw [openFile_read_fail disk p s hf hdk,
          openFile_read_fail disk p s hf hdk]
      | some content =>
        rw [openFile_fresh disk p s content hf hdk]
        have hf2 : (({ s with
              openFiles := s.openFiles ++ [freshEntry p content],
              activeFilePath := some p } : FileStore)).openFiles.find?
              (fun g => g.path = p) = some (freshEntry p content) := by
          show (s.openFiles ++ [freshEntry p content]).find? _ = _
          rw [find?_append_none hf]
          simp [List.find?, freshEntry]
        rw [openFile_already_open disk p _ _ hf2]

/-! ### C9 -/

theorem findIndex_get? (pred : OpenFile → Bool) (l : List OpenFile) :
    ∀ i, findIndex pred l = some i →
      ∃ g, l.get? i = some g ∧ pred g = true := by
  induction l with
  | nil => intro i h; simp [findIndex] at h
  | cons x xs ih =>
    intro i h
    by_cases hx : pred x = true
    · simp [findIndex, hx] at h
      subst h
      exact ⟨x, rfl, hx⟩
    · simp [findIndex, hx] at h
      obtain ⟨j, hj, hi⟩ := h
      subst hi
      exact ih j hj

theorem findIndex_of_mem (p : String) (l : List OpenFile)
    (hmem : p ∈ l.map OpenFile.path) :
    ∃ i, findIndex (fun f => f.path = p) l = some i := by
  induction l with
  | nil => simp at hmem
  | cons x xs ih =>
    rw [List.map_cons, List.mem_cons] at hmem
    by_cases hx : x.path = p
    · exact ⟨0, by simp [findIndex, hx]⟩
    · have hmem' : p ∈ xs.map OpenFile.path := by
        rcases hmem with h | h
        · exact absurd h.symm hx
        · exact h
      obtain ⟨i, hi⟩ := ih hmem'
      exact ⟨i + 1, by simp [findIndex, hx, hi]⟩

theorem not_mem_eraseIdx_findIndex (p : String) :
    ∀ (l : List OpenFile) (i : Nat),
      (l.map OpenFile.path).Nodup →
      findIndex (fun f => f.path = p) l = some i →
      p ∉ (l.eraseIdx i).map OpenFile.path := by
  intro l
  induction l with
  | nil => intro i _ h; simp [findIndex] at h
  | cons x xs ih =>
    intro i hnd h
    rw [List.map_cons, List.nodup_cons] at hnd
    by_cases hx : x.path = p
    · simp [findIndex, hx] at h
      subst h
      show p ∉ xs.map OpenFile.path
      rw [← hx]
      exact hnd.1
    · simp [findIndex, hx] at h
      obtain ⟨j, hj, hi⟩ := h
      subst hi
      show p ∉ (x :: xs.eraseIdx j).map OpenFile.path
      rw [List.map_cons]
      intro hc
      rcases List.mem_cons.mp hc with h1 | h1
      · exact hx h1.symm
      · exact ih j hnd.2 hj h1

theorem closeFile_openFiles (p : String) (s : FileStore) (i : Nat)
    (h : findIndex (fun f => f.path = p) s.openFiles = some i) :
    (closeFile p s).openFiles = s.openFiles.eraseIdx i := by
  rw [closeFile, h]
  dsimp only
  split
  · split <;> rfl
  · rfl

/-- C9: closing a path snapshots the live view-state into the side table;
reopening the same path restores exactly that snapshot: after
`closeFile p` followed by `openFile p`, the editor again displays `p` with
the view-state it had at close time, for an arbitrary starting store (open
paths distinct, `p` open) and editor state. -/
theorem C9_viewstate_roundtrip
    (s : FileStore) (e : EditorState) (p c : String) (v : Nat) (disk : Disk)
    (hnodup : (s.openFiles.map OpenFile.path).Nodup)
    (hmem : p ∈ s.openFiles.map OpenFile.path)
    (hcur : e.currentPath = some p)
    (hlive : e.liveViewState = some v)
    (hdisk : disk p = some c) :
    (activeFileEffect (activeFile (openFile disk p (closeFile p s)))
        (activeFileEffect (activeFile (closeFile p s)) e)).liveViewState
      = some v
    ∧ (activeFileEffect (activeFile (openFile disk p (closeFile p s)))
        (activeFileEffect (activeFile (closeFile p s)) e)).currentPath
      = some p := by
  obtain ⟨i, hi⟩ := findIndex_of_mem p s.openFiles hmem
  have hnot : p ∉ (closeFile p s).openFiles.map OpenFile.path := by
    rw [closeFile_openFiles p s i hi]
    exact not_mem_eraseIdx_findIndex p s.openFiles i hnodup hi
  set s1 := closeFile p s with hs1
  set e1 := activeFileEffect (activeFile s1) e with he1
  have hcache1 : e1.viewStateCache = (p, v) :: e.viewStateCache := by
    rw [he1, activeFileEffect.eq_def, hcur, hlive]
    cases activeFile s1 <;> rfl
  have hcur1 : ∀ q, e1.currentPath = some q → q ≠ p := by
    intro q hq hqp
    subst hqp
    cases haf : activeFile s1 with
    | none =>
      rw [he1, activeFileEffect.eq_def, hcur, hlive, haf] at hq
      exact Option.noConfusion hq
    | some f =>
      rw [he1, activeFileEffect.eq_def, hcur, hlive, haf] at hq
      have hfq : f.path = q := by
        have h2 : some f.path = some q := hq
        exact Option.some.inj h2
      have hfmem : f ∈ s1.openFiles := by
        have := haf
        rw [activeFile] at this
        cases hap : s1.activeFilePath with
        | none => rw [hap] at this; exact Option.noConfusion this
        | some a =>
          rw [hap] at this
          exact List.mem_of_find?_eq_some this
      exact hnot (List.mem_map.mpr ⟨f, hfmem, hfq⟩)
  have hfind1 : s1.openFiles.find? (fun g => g.path = p) = none := by
    rw [List.find?_eq_none]
    intro x hx
    simp only [decide_eq_true_eq]
    intro hxp
    exact hnot (List.mem_map.mpr ⟨x, hx, hxp⟩)
  have hs2 : openFile disk p s1 =
      { s1 with openFiles := s1.openFiles ++ [freshEntry p c],
                activeFilePath := some p } :=
    openFile_fresh disk p s1 c hfind1 hdisk
  have haf2 : activeFile (openFile disk p s1) = some (freshEntry p c) := by
    rw [hs2, activeFile]
    dsimp only
    rw [find?_append_none hfind1]
    simp [List.find?, freshEntry]
  rw [haf2]
  have hlookup : ∀ cache : List (String × Nat),
      cache = (p, v) :: e.viewStateCache →
      cache.lookup (freshEntry p c).path = some v := by
    intro cache hc
    rw [hc]
    simp [List.lookup, freshEntry]
  cases hEc : e1.currentPath with
  | none =>
    constructor
    · show (activeFileEffect (some (freshEntry p c)) e1).liveViewState = some v
      rw [activeFileEffect.eq_def, hEc]
      exact hlookup e1.viewStateCache hcache1
    · show (activeFileEffect (some (freshEntry p c)) e1).currentPath = some p
      rw [activeFileEffect.eq_def, hEc]
      rfl
  | some q =>
    have hqp : q ≠ p := hcur1 q hEc
    have hbq : (p == q) = false := by
      rw [beq_eq_false_iff_ne]
      exact fun h => hqp h.symm
    cases hEl : e1.liveViewState with
    | none =>
      constructor
      · show (activeFileEffect (some (freshEntry p c)) e1).liveViewState = some v
        rw [activeFileEffect.eq_def, hEc, hEl]
        exact hlookup e1.viewStateCache hcache1
      · show (activeFileEffect (some (freshEntry p c)) e1).currentPath = some p
        rw [activeFileEffect.eq_def, hEc, hEl]
        rfl
    | some st =>
      constructor
      · show (activeFileEffect (some (freshEntry p c)) e1).liveViewState = some v
        rw [activeFileEffect.eq_def, hEc, hEl]
        show ((q, st) :: e1.viewStateCache).lookup (freshEntry p c).path = some v
        rw [hcache1]
        simp [List.lookup, freshEntry, hbq]
      · show (activeFileEffect (some (freshEntry p c)) e1).currentPath = some p
        rw [activeFileEffect.eq_def, hEc, hEl]
        rfl

/-- Witness for C9: close and reopen `"a"` starting from the one-entry
store; the live view-state `7` survives the round trip. -/
theorem C9_viewstate_roundtrip_witness :
    (activeFileEffect (activeFile (openFile diskSmall "a"
          (closeFile "a" storeSmall)))
        (activeFileEffect (activeFile (closeFile "a" storeSmall))
          editorSmall)).liveViewState = some 7
    ∧ (activeFileEffect (activeFile (openFile diskSmall "a"
          (closeFile "a" storeSmall)))
        (activeFileEffect (activeFile (closeFile "a" storeSmall))
          editorSmall)).currentPath = some "a" :=
  C9_viewstate_roundtrip storeSmall editorSmall "a" "x" 7 diskSmall
    (by decide) (by decide) rfl rfl (by decide)

/-! ### C10 -/

theorem activeInv_none {s : FileStore} (h : s.activeFilePath = none) :
    activeInv s := by
  unfold activeInv
  rw [h]
  exact trivial

theorem activeInv_some {s : FileStore} {p : String}
    (h : s.activeFilePath = some p)
    (hmem : p ∈ s.openFiles.map OpenFile.path) : activeInv s := by
  unfold activeInv
  rw [h]
  exact hmem

theorem activeInv_elim {s : FileStore} (h : activeInv s) {p : String}
    (hp : s.activeFilePath = some p) :
    p ∈ s.openFiles.map OpenFile.path := by
  unfold activeInv at h
  rw [hp] at h
  exact h

theorem mem_eraseIdx_of_get?_ne (a : OpenFile) :
    ∀ (l : List OpenFile) (i : Nat), a ∈ l → l.get? i ≠ some a →
      a ∈ l.eraseIdx i := by
  intro l
  induction l with
  | nil => intro i h _; exact absurd h (List.not_mem_nil a)
  | cons x xs ih =>
    intro i hmem hne
    cases i with
    | zero =>
      rcases List.mem_cons.mp hmem with h | h
      · subst h
        exact absurd rfl hne
      · exact h
    | succ j =>
      show a ∈ x :: xs.eraseIdx j
      rcases List.mem_cons.mp hmem with h | h
      · subst h
        exact List.mem_cons_self a _
      · exact List.mem_cons_of_mem x (ih j h hne)

theorem openFile_activeInv (disk : Disk) (p : String) (s : FileStore)
    (h : activeInv s) : activeInv (openFile disk p s) := by
  cases hf : s.openFiles.find? (fun g => g.path = p) with
  | some f =>
    rw [openFile_already_open disk p s f hf]
    apply activeInv_some rfl
    have hfp : f.path = p := by simpa using List.find?_some hf
    exact List.mem_map.mpr ⟨f, List.mem_of_find?_eq_some hf, hfp⟩
  | none =>
    cases hdk : disk p with
    | none =>
      rw [openFile_read_fail disk p s hf hdk]
      exact h
    | some content =>
      rw [openFile_fresh disk p s content hf hdk]
      apply activeInv_some rfl
      rw [List.map_append]
      refine List.mem_append.mpr (Or.inr ?_)
      simp [freshEntry]

theorem openPreview_activeInv (disk : Disk) (sp : String) (s : FileStore)
    (h : activeInv s) : activeInv (openPreview disk sp s) := by
  unfold openPreview
  dsimp only
  cases hf : s.openFiles.find? (fun g => g.path = sp ++ "::preview") with
  | some f =>
    apply activeInv_some rfl
    have hfp : f.path = sp ++ "::preview" := by
      simpa using List.find?_some hf
    exact List.mem_map.mpr ⟨f, List.mem_of_find?_eq_some hf, hfp⟩
  | none =>
    dsimp only
    cases hsf : s.openFiles.find? (fun g => g.path = sp) with
    | some sourceFile =>
      apply activeInv_some rfl
      rw [List.map_append]
      refine List.mem_append.mpr (Or.inr ?_)
      simp
    | none =>
      dsimp only
      cases hdk : disk sp with
      | none => exact h
      | some content =>
        apply activeInv_some rfl
        rw [List.map_append]
        refine List.mem_append.mpr (Or.inr ?_)
        simp

theorem closeFile_activeInv (p : String) (s : FileStore) (h : activeInv s) :
    activeInv (closeFile p s) := by
  cases hi : findIndex (fun f => f.path = p) s.openFiles with
  | none =>
    rw [closeFile, hi]
    exact h
  | some i =>
    rw [closeFile, hi]
    dsimp only
    by_cases hact : s.activeFilePath = some p
    · rw [if_pos hact]
      by_cases hlen : (s.openFiles.eraseIdx i).length > 0
      · rw [if_pos hlen]
        cases hget : (s.openFiles.eraseIdx i).get?
            (min i ((s.openFiles.eraseIdx i).length - 1)) with
        | none => exact activeInv_none rfl
        | some g =>
          dsimp only
          by_cases hge : g.path = ""
          · rw [if_pos hge]
            exact activeInv_none rfl
          · rw [if_neg hge]
            apply activeInv_some rfl
            exact List.mem_map.mpr ⟨g, List.get?_mem hget, rfl⟩
      · rw [if_neg hlen]
        exact activeInv_none rfl
    · rw [if_neg hact]
      cases hap : s.activeFilePath with
      | none => exact activeInv_none rfl
      | some q =>
        apply activeInv_some rfl
        have hq := activeInv_elim h hap
        obtain ⟨f, hfmem, hfq⟩ := List.mem_map.mp hq
        obtain ⟨g, hgget, hgpred⟩ := findIndex_get? _ s.openFiles i hi
        have hgp : g.path = p := by simpa using hgpred
        have hqp : q ≠ p := fun hc => hact (hc ▸ hap)
        have hfg : s.openFiles.get? i ≠ some f := by
          intro hc
          rw [hgget] at hc
          have hgf : g = f := Option.some.inj hc
          apply hqp
          rw [← hfq, ← hgf]
          exact hgp
        exact List.mem_map.mpr
          ⟨f, mem_eraseIdx_of_get?_ne f s.openFiles i hfmem hfg, hfq⟩

theorem closeFile_empty_active (p : String) (s : FileStore)
    (h : activeInv s) :
    (closeFile p s).openFiles = [] → (closeFile p s).activeFilePath = none := by
  intro hempty
  cases hi : findIndex (fun f => f.path = p) s.openFiles with
  | none =>
    rw [closeFile, hi] at hempty ⊢
    cases hap : s.activeFilePath with
    | none => rfl
    | some q =>
      exfalso
      have hq := activeInv_elim h hap
      rw [hempty] at hq
      simp at hq
  | some i =>
    rw [closeFile, hi] at hempty ⊢
    dsimp only at hempty ⊢
    by_cases hact : s.activeFilePath = some p
    · rw [if_pos hact] at hempty ⊢
      by_cases hlen : (s.openFiles.eraseIdx i).length > 0
      · rw [if_pos hlen] at hempty
        dsimp only at hempty
        rw [hempty] at hlen
        simp at hlen
      · rw [if_neg hlen]
    · rw [if_neg hact] at hempty ⊢
      dsimp only at hempty
      cases hap : s.activeFilePath with
      | none => rfl
      | some q =>
        exfalso
        have hq := activeInv_elim h hap
        obtain ⟨f, hfmem, hfq⟩ := List.mem_map.mp hq
        have hqp : q ≠ p := fun hc => hact (hc ▸ hap)
        obtain ⟨g, hgget, hgpred⟩ := findIndex_get? _ s.openFiles i hi
        have hgp : g.path = p := by simpa using hgpred
        have hfg : s.openFiles.get? i ≠ some f := by
          intro hc
          rw [hgget] at hc
          have hgf : g = f := Option.some.inj hc
          apply hqp
          rw [← hfq, ← hgf]
          exact hgp
        have hf' := mem_eraseIdx_of_get?_ne f s.openFiles i hfmem hfg
        rw [hempty] at hf'
        exact List.not_mem_nil f hf'

theorem closeOtherFiles_activeInv (p : String) (s : FileStore)
    (hmem : p ∈ s.openFiles.map OpenFile.path) :
    activeInv (closeOtherFiles p s) := by
  apply activeInv_some rfl
  obtain ⟨f, hf, hfp⟩ := List.mem_map.mp hmem
  refine List.mem_map.mpr ⟨f, ?_, hfp⟩
  show f ∈ s.openFiles.filter (fun g => g.path == p)
  exact List.mem_filter.mpr ⟨hf, by simp [hfp]⟩

theorem closeAllFiles_activeInv (s : FileStore) :
    activeInv (closeAllFiles s) :=
  activeInv_none rfl

theorem closeFilesToRight_activeInv (p : String) (s : FileStore)
    (h : activeInv s) : activeInv (closeFilesToRight p s) := by
  cases hi : findIndex (fun f => f.path = p) s.openFiles with
  | none =>
    rw [closeFilesToRight, hi]
    exact h
  | some i =>
    rw [closeFilesToRight, hi]
    dsimp only
    cases hap : s.activeFilePath with
    | none => exact activeInv_none rfl
    | some ap =>
      dsimp only
      by_cases hfind :
          ((s.openFiles.take (i + 1)).find? (fun g => g.path = ap)).isNone
            = true
      · rw [if_pos hfind]
        apply activeInv_some rfl
        obtain ⟨g, hgget, hgpred⟩ := findIndex_get? _ s.openFiles i hi
        have hgp : g.path = p := by simpa using hgpred
        have htake : (s.openFiles.take (i + 1)).get? i = some g := by
          rw [List.get?_take (Nat.lt_succ_self i)]
          exact hgget
        exact List.mem_map.mpr ⟨g, List.get?_mem htake, hgp⟩
      · rw [if_neg hfind]
        apply activeInv_some rfl
        obtain ⟨f, hfopt⟩ :
            ∃ f, (s.openFiles.take (i + 1)).find? (fun g => g.path = ap)
              = some f := by
          cases hopt : (s.openFiles.take (i + 1)).find?
              (fun g => g.path = ap) with
          | none => rw [hopt] at hfind; simp at hfind
          | some f => exact ⟨f, rfl⟩
        have hfap : f.path = ap := by simpa using List.find?_some hfopt
        exact List.mem_map.mpr
          ⟨f, List.mem_of_find?_eq_some hfopt, hfap⟩

theorem updateFileContent_activeInv (p c : String) (s : FileStore)
    (h : activeInv s) : activeInv (updateFileContent p c s) := by
  cases hi : findIndex (fun f => f.path = p) s.openFiles with
  | none =>
    rw [updateFileContent, hi]
    exact h
  | some i =>
    rw [updateFileContent, hi]
    dsimp only
    cases hap : s.activeFilePath with
    | none => exact activeInv_none rfl
    | some q =>
      apply activeInv_some rfl
      rw [updateFirst_map_path p
        (fun f => { f with content := c, isDirty := true }) (fun x => rfl)]
      exact activeInv_elim h hap

theorem saveFile_activeInv (ok : Bool) (p : String) (s : FileStore)
    (h : activeInv s) : activeInv (saveFile ok p s) := by
  cases hf : s.openFiles.find? (fun g => g.path = p) with
  | none =>
    rw [saveFile, hf]
    exact h
  | some f =>
    rw [saveFile, hf]
    dsimp only
    split
    · cases hap : s.activeFilePath with
      | none => exact activeInv_none rfl
      | some q =>
        apply activeInv_some rfl
        rw [updateFirst_map_path p
          (fun f => { f with isDirty := false }) (fun x => rfl)]
        exact activeInv_elim h hap
    · exact h

/-- C10: the claim states that every buffer-store operation keeps the
active path pointing at an open entry (or `null`).  `closeOtherFiles`
violates it when invoked with a path that is not open: starting from the
valid one-entry store, `closeOtherFiles "b"` removes every entry yet
unconditionally sets the active path to `"b"`. -/
theorem C10_counterexample :
    activeInv storeSmall
    ∧ (closeOtherFiles "b" storeSmall).openFiles = []
    ∧ (closeOtherFiles "b" storeSmall).activeFilePath = some "b"
    ∧ ¬ activeInv (closeOtherFiles "b" storeSmall) := by
  refine ⟨by decide, by decide, by decide, by decide⟩

/-- C10 (amended): every buffer-store operation preserves the invariant
that the active file path is `null` or the path of an open entry — with
the proviso that `closeOtherFiles` preserves it only when its argument is
a currently open path (it activates its argument unconditionally).  In
particular, closing the active file re-points the active path to a
remaining entry's path, and closing down to an empty list leaves the
active path `null`. -/
theorem C10_invariant_preserved
    (s : FileStore) (disk : Disk) (p c sp : String) (ok : Bool)
    (h : activeInv s) :
    activeInv (openFile disk p s)
    ∧ activeInv (openPreview disk sp s)
    ∧ activeInv (closeFile p s)
    ∧ ((closeFile p s).openFiles = [] →
        (closeFile p s).activeFilePath = none)
    ∧ (p ∈ s.openFiles.map OpenFile.path →
        activeInv (closeOtherFiles p s))
    ∧ activeInv (closeAllFiles s)
    ∧ activeInv (closeFilesToRight p s)
    ∧ activeInv (updateFileContent p c s)
    ∧ activeInv (saveFile ok p s) :=
  ⟨openFile_activeInv disk p s h,
   openPreview_activeInv disk sp s h,
   closeFile_activeInv p s h,
   closeFile_empty_active p s h,
   fun hmem => closeOtherFiles_activeInv p s hmem,
   closeAllFiles_activeInv s,
   closeFilesToRight_activeInv p s h,
   updateFileContent_activeInv p c s h,
   saveFile_activeInv ok p s h⟩

/-- Witness for C10 (amended) on the valid one-entry store. -/
theorem C10_invariant_preserved_witness :
    activeInv (openFile diskSmall "a" storeSmall)
    ∧ activeInv (openPreview diskSmall "a" storeSmall)
    ∧ activeInv (closeFile "a" storeSmall)
    ∧ ((closeFile "a" storeSmall).openFiles = [] →
        (closeFile "a" storeSmall).activeFilePath = none)
    ∧ ("a" ∈ storeSmall.openFiles.map OpenFile.path →
        activeInv (closeOtherFiles "a" storeSmall))
    ∧ activeInv (closeAllFiles storeSmall)
    ∧ activeInv (closeFilesToRight "a" storeSmall)
    ∧ activeInv (updateFileContent "a" "y" storeSmall)
    ∧ activeInv (saveFile true "a" storeSmall) :=
  C10_invariant_preserved storeSmall diskSmall "a" "y" "a" true (by decide)

end ClifCode
